import Mathlib

set_option maxHeartbeats 1000000

/-! # Embedding of the smart-pager program

Bytes are modelled as `Nat` (values 0–255) and byte strings as `List Nat`.
The program's three pure cores (`visible_length`, `lines_used`, and the
buffer-filling loop of the reader) are translated to Lean functions; the
reader's interaction with the input source is modelled by an explicit list of
read events, and the dispatching code of `main` by functions over explicit
outcome schedules for the writes and the pager subprocess. -/

/-- Does a byte continue an SGR parameter list?  Mirrors the Rust pattern
`b'0'..=b'9' | b';'` (digits 48–57 and the semicolon 59). -/
def isSeqByte (c : Nat) : Bool :=
  (decide (48 ≤ c) && decide (c ≤ 57)) || decide (c = 59)

/-- Scanner state of the visible-length estimator: the `State` enum declared
inside the Rust `visible_length`. -/
inductive VLState where
  | Normal : VLState
  | Esc : VLState
  | Csi : VLState
  | MidSequence : Nat → VLState
  deriving DecidableEq, Repr

/-- One transition of the estimator: given the current state and the next
byte, the successor state and the number of visible columns this byte
contributes.  Mirrors the Rust `match (&mut state, c)` arm by arm (ESC is 27,
`0xc2` is 194, `[` is 91, `0x9b` is 155, `m` is 109). -/
def vlStep (s : VLState) (c : Nat) : VLState × Nat :=
  match s with
  | .Normal =>
      if c = 27 then (.Esc, 0)
      else if c = 194 then (.Csi, 0)
      else (.Normal, 1)
  | .Esc => if c = 91 then (.MidSequence 2, 0) else (.Normal, 2)
  | .Csi => if c = 155 then (.MidSequence 2, 0) else (.Normal, 2)
  | .MidSequence pos =>
      if isSeqByte c then (.MidSequence (pos + 1), 0)
      else if c = 109 then (.Normal, 0)
      else (.Normal, pos + 1)

/-- Columns contributed by the scanner state once the input ends: the final
`match state` of the Rust `visible_length`. -/
def vlFinal : VLState → Nat
  | .Normal => 0
  | .Esc => 1
  | .Csi => 1
  | .MidSequence pos => pos

/-- Running the estimator from state `s`: the sum of the per-byte
contributions plus the end-of-input contribution of the final state. -/
def visibleLengthFrom (s : VLState) : List Nat → Nat
  | [] => vlFinal s
  | c :: rest => (vlStep s c).2 + visibleLengthFrom (vlStep s c).1 rest

/-- Rust `visible_length`. -/
def visible_length (buf : List Nat) : Nat :=
  visibleLengthFrom .Normal buf

example : visible_length [] = 0 := by decide
example : visible_length [97, 98, 99] = 3 := by decide
example : visible_length [27, 91, 49, 109, 102, 111, 111, 27, 91, 48, 109, 32, 98, 97, 114] = 7 := by
  decide
example : visible_length [27, 91, 49, 59, 50, 109] = 0 := by decide
example : visible_length [27] = 1 := by decide
example : visible_length [27, 91] = 2 := by decide
example : visible_length [27, 91, 51, 57] = 4 := by decide
example : visible_length [27, 91, 102, 111, 111] = 5 := by decide
example : visible_length [27, 91, 49, 59, 50, 122] = 6 := by decide

lemma visibleLengthFrom_cons (s : VLState) (c : Nat) (rest : List Nat) :
    visibleLengthFrom s (c :: rest) =
      (vlStep s c).2 + visibleLengthFrom (vlStep s c).1 rest := rfl

/-- An ordinary byte (neither the ESC lead-in nor the first CSI byte) read in
the `Normal` state contributes exactly one column. -/
lemma vl_normal_ord (c : Nat) (h1 : c ≠ 27) (h2 : c ≠ 194) (rest : List Nat) :
    visibleLengthFrom .Normal (c :: rest) = 1 + visibleLengthFrom .Normal rest := by
  simp [visibleLengthFrom_cons, vlStep, h1, h2]

lemma vl_cons_esc (rest : List Nat) :
    visibleLengthFrom .Normal (27 :: rest) = visibleLengthFrom .Esc rest := by
  rw [visibleLengthFrom_cons]
  norm_num [vlStep]

lemma vl_cons_csi (rest : List Nat) :
    visibleLengthFrom .Normal (194 :: rest) = visibleLengthFrom .Csi rest := by
  rw [visibleLengthFrom_cons]
  norm_num [vlStep]

lemma vl_cons_esc_lb (rest : List Nat) :
    visibleLengthFrom .Esc (91 :: rest) = visibleLengthFrom (.MidSequence 2) rest := by
  rw [visibleLengthFrom_cons]
  norm_num [vlStep]

lemma vl_cons_csi_snd (rest : List Nat) :
    visibleLengthFrom .Csi (155 :: rest) = visibleLengthFrom (.MidSequence 2) rest := by
  rw [visibleLengthFrom_cons]
  norm_num [vlStep]

lemma vl_cons_mid_m (p : Nat) (rest : List Nat) :
    visibleLengthFrom (.MidSequence p) (109 :: rest) = visibleLengthFrom .Normal rest := by
  rw [visibleLengthFrom_cons]
  norm_num [vlStep, isSeqByte]

/-- Scanning a run of parameter bytes from mid-sequence only bumps the
accumulated count. -/
lemma vl_mid_run (body : List Nat) (p : Nat) (tail : List Nat)
    (h : ∀ b ∈ body, isSeqByte b = true) :
    visibleLengthFrom (.MidSequence p) (body ++ tail) =
      visibleLengthFrom (.MidSequence (p + body.length)) tail := by
  induction body generalizing p with
  | nil => simp
  | cons b bs ih =>
      have hb : isSeqByte b = true := h b (List.mem_cons_self b bs)
      have hbs : ∀ x ∈ bs, isSeqByte x = true := fun x hx => h x (List.mem_cons_of_mem b hx)
      rw [List.cons_append, visibleLengthFrom_cons]
      simp only [vlStep, hb, if_true]
      rw [ih (p + 1) hbs]
      have harg : p + 1 + bs.length = p + (b :: bs).length := by
        simp only [List.length_cons]
        omega
      rw [harg, Nat.zero_add]

/-- A complete SGR sequence introduced by `ESC [` scans to nothing and returns
the machine to `Normal`. -/
lemma vl_sgr_esc (body : List Nat) (rest : List Nat)
    (h : ∀ b ∈ body, isSeqByte b = true) :
    visibleLengthFrom .Normal (27 :: 91 :: (body ++ 109 :: rest)) =
      visibleLengthFrom .Normal rest := by
  rw [vl_cons_esc, vl_cons_esc_lb, vl_mid_run body 2 (109 :: rest) h, vl_cons_mid_m]

/-- A complete SGR sequence introduced by the two-byte CSI encoding scans to
nothing and returns the machine to `Normal`. -/
lemma vl_sgr_csi (body : List Nat) (rest : List Nat)
    (h : ∀ b ∈ body, isSeqByte b = true) :
    visibleLengthFrom .Normal (194 :: 155 :: (body ++ 109 :: rest)) =
      visibleLengthFrom .Normal rest := by
  rw [vl_cons_csi, vl_cons_csi_snd, vl_mid_run body 2 (109 :: rest) h, vl_cons_mid_m]

/-- A printable chunk of input: either one ordinary byte, or a complete SGR
sequence (`false` = the `ESC [` introducer, `true` = the two-byte CSI
encoding) whose parameter bytes are `body`. -/
inductive VChunk where
  | ord : Nat → VChunk
  | sgr : Bool → List Nat → VChunk
  deriving DecidableEq, Repr

/-- The bytes a chunk stands for. -/
def VChunk.bytes : VChunk → List Nat
  | .ord c => [c]
  | .sgr false body => 27 :: 91 :: (body ++ [109])
  | .sgr true body => 194 :: 155 :: (body ++ [109])

/-- Well-formedness: an ordinary byte is not a sequence lead-in, and an SGR
body holds only digits and semicolons. -/
def VChunk.wfb : VChunk → Bool
  | .ord c => !(c == 27) && !(c == 194)
  | .sgr _ body => body.all isSeqByte

/-- How many chunks of a list are ordinary bytes. -/
def ordCount : List VChunk → Nat
  | [] => 0
  | .ord _ :: cs => ordCount cs + 1
  | .sgr _ _ :: cs => ordCount cs

lemma vl_chunks (cs : List VChunk) (h : ∀ ch ∈ cs, ch.wfb = true) :
    visibleLengthFrom .Normal ((cs.map VChunk.bytes).flatten) = ordCount cs := by
  induction cs with
  | nil => simp [visibleLengthFrom, vlFinal, ordCount]
  | cons ch cs ih =>
      have hch : ch.wfb = true := h ch (List.mem_cons_self ch cs)
      have hcs : ∀ x ∈ cs, x.wfb = true := fun x hx => h x (List.mem_cons_of_mem ch hx)
      rw [List.map_cons, List.flatten_cons]
      match ch with
      | .ord c =>
          have h1 : c ≠ 27 := by
            intro hc; rw [hc] at hch; simp [VChunk.wfb] at hch
          have h2 : c ≠ 194 := by
            intro hc; rw [hc] at hch; simp [VChunk.wfb] at hch
          rw [show VChunk.bytes (.ord c) = [c] from rfl, List.singleton_append,
            vl_normal_ord c h1 h2, ih hcs]
          simp [ordCount, Nat.add_comm]
      | .sgr false body =>
          have hbody : ∀ b ∈ body, isSeqByte b = true := by
            intro b hb
            have hall := hch
            simp only [VChunk.wfb, List.all_eq_true] at hall
            exact hall b hb
          rw [show VChunk.bytes (.sgr false body) = 27 :: 91 :: (body ++ [109]) from rfl]
          have hassoc : (27 :: 91 :: (body ++ [109])) ++ (cs.map VChunk.bytes).flatten =
              27 :: 91 :: (body ++ 109 :: (cs.map VChunk.bytes).flatten) := by
            simp
          rw [hassoc, vl_sgr_esc body _ hbody, ih hcs]
          simp [ordCount]
      | .sgr true body =>
          have hbody : ∀ b ∈ body, isSeqByte b = true := by
            intro b hb
            have hall := hch
            simp only [VChunk.wfb, List.all_eq_true] at hall
            exact hall b hb
          rw [show VChunk.bytes (.sgr true body) = 194 :: 155 :: (body ++ [109]) from rfl]
          have hassoc : (194 :: 155 :: (body ++ [109])) ++ (cs.map VChunk.bytes).flatten =
              194 :: 155 :: (body ++ 109 :: (cs.map VChunk.bytes).flatten) := by
            simp
          rw [hassoc, vl_sgr_csi body _ hbody, ih hcs]
          simp [ordCount]

/-- C2: `visible_length` counts every ordinary byte as exactly one column and
every complete recognized SGR sequence (introducer, then digits/semicolons,
terminated by `m`) as zero columns: over any well-formed sequence of such
chunks it returns the number of ordinary bytes.  In particular, on the input
`"\x1b[1mfoo\x1b[0m bar"` it returns 7. -/
theorem c2_visible_counts_ord_only (cs : List VChunk) (h : ∀ ch ∈ cs, ch.wfb = true) :
    visible_length ((cs.map VChunk.bytes).flatten) = ordCount cs ∧
    visible_length [27, 91, 49, 109, 102, 111, 111, 27, 91, 48, 109, 32, 98, 97, 114] = 7 := by
  exact ⟨vl_chunks cs h, by decide⟩

/-- Witness for C2 at the spec's Scenario B input, decomposed into chunks. -/
theorem c2_visible_counts_ord_only_witness :
    visible_length (([VChunk.sgr false [49], VChunk.ord 102, VChunk.ord 111, VChunk.ord 111,
        VChunk.sgr false [48], VChunk.ord 32, VChunk.ord 98, VChunk.ord 97,
        VChunk.ord 114].map VChunk.bytes).flatten) =
      ordCount [VChunk.sgr false [49], VChunk.ord 102, VChunk.ord 111, VChunk.ord 111,
        VChunk.sgr false [48], VChunk.ord 32, VChunk.ord 98, VChunk.ord 97, VChunk.ord 114] :=
  (c2_visible_counts_ord_only
    [VChunk.sgr false [49], VChunk.ord 102, VChunk.ord 111, VChunk.ord 111,
      VChunk.sgr false [48], VChunk.ord 32, VChunk.ord 98, VChunk.ord 97, VChunk.ord 114]
    (by decide)).1

/-- C4: an unrecognized byte inside a sequence makes the whole accumulated run
visible (`n + 1` columns where `n` counts the bytes consumed since the
introducer); at end of input a bare introducer contributes 1 and a
never-terminated sequence contributes its accumulated count — so unrecognized
and unterminated sequences contribute their full literal byte count. -/
theorem c4_unrecognized_full_count (body : List Nat) (c : Nat) (rest : List Nat)
    (hb : ∀ b ∈ body, isSeqByte b = true) (hc : isSeqByte c = false) (hm : c ≠ 109) :
    visible_length (27 :: 91 :: (body ++ c :: rest)) =
      (body.length + 3) + visible_length rest ∧
    visible_length (27 :: 91 :: body) = body.length + 2 ∧
    vlFinal VLState.Esc = 1 ∧ vlFinal VLState.Csi = 1 ∧
    (∀ n, vlFinal (VLState.MidSequence n) = n) := by
  have hstep : vlStep (.MidSequence (2 + body.length)) c = (.Normal, 2 + body.length + 1) := by
    simp [vlStep, hc, hm]
  refine ⟨?_, ?_, rfl, rfl, fun n => rfl⟩
  · show visibleLengthFrom .Normal (27 :: 91 :: (body ++ c :: rest)) = _
    rw [vl_cons_esc, vl_cons_esc_lb, vl_mid_run body 2 (c :: rest) hb,
      visibleLengthFrom_cons, hstep]
    show 2 + body.length + 1 + visibleLengthFrom .Normal rest = _
    unfold visible_length
    omega
  · show visibleLengthFrom .Normal (27 :: 91 :: body) = _
    rw [vl_cons_esc, vl_cons_esc_lb]
    have hnil := vl_mid_run body 2 [] hb
    rw [List.append_nil] at hnil
    rw [hnil]
    show vlFinal (.MidSequence (2 + body.length)) = _
    show 2 + body.length = _
    omega

/-- Witness for C4 at the Rust unit-test input `"\x1b[1;2z"`. -/
theorem c4_unrecognized_full_count_witness :
    visible_length (27 :: 91 :: ([49, 59, 50] ++ 122 :: [])) =
      ([49, 59, 50].length + 3) + visible_length [] :=
  (c4_unrecognized_full_count [49, 59, 50] 122 [] (by decide) (by decide) (by decide)).1

/-- Bytes the scanner has consumed but not yet emitted as visible: what each
state would contribute if the input ended now. -/
def pendingOf : VLState → Nat
  | .Normal => 0
  | .Esc => 1
  | .Csi => 1
  | .MidSequence p => p

/-- Does this byte complete a recognized SGR sequence in this state?  This is
the one transition of the machine that discards accumulated bytes. -/
def completes (s : VLState) (c : Nat) : Bool :=
  match s with
  | .MidSequence _ => !isSeqByte c && c == 109
  | _ => false

/-- Does scanning `buf` from state `s` ever complete a recognized SGR
sequence? -/
def hasSGRFrom (s : VLState) : List Nat → Bool
  | [] => false
  | c :: rest => completes s c || hasSGRFrom (vlStep s c).1 rest

/-- Does `buf` contain a complete recognized SGR sequence (as recognized by
the scanner of `visible_length`)? -/
def hasSGR (buf : List Nat) : Bool := hasSGRFrom .Normal buf

/-- The running estimate never exceeds pending bytes plus remaining input, and
is exactly that sum when no complete SGR sequence is ever recognized. -/
lemma vl_le_pending : ∀ (buf : List Nat) (s : VLState),
    visibleLengthFrom s buf ≤ pendingOf s + buf.length ∧
    (hasSGRFrom s buf = false → visibleLengthFrom s buf = pendingOf s + buf.length) := by
  intro buf
  induction buf with
  | nil =>
      intro s
      constructor
      · cases s <;> simp [visibleLengthFrom, vlFinal, pendingOf]
      · intro _
        cases s <;> simp [visibleLengthFrom, vlFinal, pendingOf]
  | cons c rest ih =>
      intro s
      rw [visibleLengthFrom_cons,
        show hasSGRFrom s (c :: rest) = (completes s c || hasSGRFrom (vlStep s c).1 rest)
          from rfl]
      have hrest := ih (vlStep s c).1
      have hcontrib : (vlStep s c).2 + pendingOf (vlStep s c).1 ≤ pendingOf s + 1 ∧
          (completes s c = false →
            (vlStep s c).2 + pendingOf (vlStep s c).1 = pendingOf s + 1) := by
        cases s with
        | Normal =>
            by_cases h27 : c = 27
            · subst h27; constructor <;> simp [vlStep, pendingOf, completes]
            · by_cases h194 : c = 194
              · subst h194; constructor <;> simp [vlStep, pendingOf, completes, h27]
              · constructor <;> simp [vlStep, pendingOf, completes, h27, h194]
        | Esc =>
            by_cases h91 : c = 91
            · subst h91; constructor <;> simp [vlStep, pendingOf, completes]
            · constructor <;> simp [vlStep, pendingOf, completes, h91]
        | Csi =>
            by_cases h155 : c = 155
            · subst h155; constructor <;> simp [vlStep, pendingOf, completes]
            · constructor <;> simp [vlStep, pendingOf, completes, h155]
        | MidSequence p =>
            by_cases hsb : isSeqByte c = true
            · constructor <;> simp [vlStep, pendingOf, completes, hsb]
            · by_cases h109 : c = 109
              · subst h109
                constructor
                · simp [vlStep, pendingOf, isSeqByte] at hsb ⊢
                · intro hfalse
                  simp [completes, isSeqByte] at hfalse
              · constructor <;> simp [vlStep, pendingOf, completes, hsb, h109]
      constructor
      · calc (vlStep s c).2 + visibleLengthFrom (vlStep s c).1 rest
            ≤ (vlStep s c).2 + (pendingOf (vlStep s c).1 + rest.length) :=
              Nat.add_le_add_left hrest.1 _
          _ = ((vlStep s c).2 + pendingOf (vlStep s c).1) + rest.length := by omega
          _ ≤ (pendingOf s + 1) + rest.length := Nat.add_le_add_right hcontrib.1 _
          _ = pendingOf s + (c :: rest).length := by simp [List.length_cons]; omega
      · intro hno
        rw [Bool.or_eq_false_iff] at hno
        have heq := hrest.2 hno.2
        rw [heq]
        have := hcontrib.2 hno.1
        simp only [List.length_cons]
        omega

/-- C10: for every byte slice, `visible_length` is at most the slice's byte
length, with equality whenever the slice contains no complete recognized SGR
sequence. -/
theorem c10_visible_le_length (buf : List Nat) :
    visible_length buf ≤ buf.length ∧
    (hasSGR buf = false → visible_length buf = buf.length) := by
  have h := vl_le_pending buf .Normal
  unfold visible_length hasSGR
  constructor
  · simpa [pendingOf] using h.1
  · intro hno
    simpa [pendingOf] using h.2 hno

/-- Witness for C10: a slice with no SGR sequence has visible length equal to
its byte length. -/
theorem c10_visible_le_length_witness :
    visible_length [104, 105, 27, 91, 51, 57] = ([104, 105, 27, 91, 51, 57] : List Nat).length :=
  (c10_visible_le_length [104, 105, 27, 91, 51, 57]).2 (by decide)

/-- Rust `buf.split(|c| *c == b'\n')`: the newline byte is 10; an empty buffer
yields one empty segment, a trailing newline an empty trailing segment. -/
def splitNl : List Nat → List (List Nat)
  | [] => [[]]
  | c :: rest => if c = 10 then [] :: splitNl rest else (splitNl rest).modifyHead (c :: ·)

/-- Rust `lines_used`: split on newlines, and for each segment charge
`(visible_length - 1)/width + 1` rows, where the subtraction saturates. -/
def lines_used (buf : List Nat) (width : Nat) : Nat :=
  ((splitNl buf).map (fun line => (visible_length line - 1) / width + 1)).sum

example : lines_used [97] 100 = 1 := by decide
example : lines_used [97, 10, 98] 100 = 2 := by decide
example : lines_used [97, 97, 97] 3 = 1 := by decide
example : lines_used [97, 97, 97, 97] 3 = 2 := by decide
example : lines_used [] 100 = 1 := by decide

/-- Rows required for one segment, written the way the spec states it: a
segment of zero visible length occupies one row; otherwise the ceiling of
visible length over width.  This is the spec-side definition the code's
formula is compared against in C3. -/
def rowsRequiredSpec (v w : Nat) : Nat :=
  if v = 0 then 1 else (v + w - 1) / w

/-- The code's per-segment row formula agrees with the spec's. -/
lemma rows_code_eq_spec (v w : Nat) (hw : 0 < w) :
    (v - 1) / w + 1 = rowsRequiredSpec v w := by
  unfold rowsRequiredSpec
  match v with
  | 0 => simp
  | u + 1 =>
      rw [if_neg (Nat.succ_ne_zero u)]
      have h1 : u + 1 + w - 1 = u + w := by omega
      rw [h1, Nat.add_sub_cancel, Nat.add_div_right u hw]

lemma splitNl_ne_nil (b : List Nat) : splitNl b ≠ [] := by
  induction b with
  | nil => simp [splitNl]
  | cons c rest ih =>
      unfold splitNl
      by_cases hc : c = 10
      · simp [hc]
      · rw [if_neg hc]
        match hsp : splitNl rest with
        | [] => exact absurd hsp ih
        | x :: xs => simp [List.modifyHead]

lemma splitNl_append_nl (b : List Nat) : splitNl (b ++ [10]) = splitNl b ++ [[]] := by
  induction b with
  | nil => simp [splitNl]
  | cons c rest ih =>
      unfold splitNl
      by_cases hc : c = 10
      · simp only [List.cons_append, hc, if_true, reduceIte]
        rw [ih]
      · simp only [List.cons_append, if_neg hc]
        rw [ih]
        match hsp : splitNl rest with
        | [] => exact absurd hsp (splitNl_ne_nil rest)
        | x :: xs => simp [List.modifyHead]

/-- C3: `lines_used` splits the buffer on newline bytes (a trailing newline
yielding an empty trailing segment that adds one row) and charges each
segment `max(visible_length - 1, 0)/width + 1` rows, which equals the spec's
reading: one row for a zero-visible-length segment, and exactly `k` rows (not
one extra) for a segment whose visible length is the exact multiple `k·width`. -/
theorem c3_lines_used_rows (buf : List Nat) (w : Nat) (hw : 0 < w) :
    lines_used buf w =
      ((splitNl buf).map (fun line => rowsRequiredSpec (visible_length line) w)).sum ∧
    lines_used (buf ++ [10]) w = lines_used buf w + 1 ∧
    rowsRequiredSpec 0 w = 1 ∧
    (∀ k, 0 < k → rowsRequiredSpec (k * w) w = k) := by
  refine ⟨?_, ?_, by simp [rowsRequiredSpec], ?_⟩
  · unfold lines_used
    congr 1
    apply List.map_congr_left
    intro l _
    exact rows_code_eq_spec (visible_length l) w hw
  · unfold lines_used
    rw [splitNl_append_nl, List.map_append, List.sum_append]
    simp [visible_length, visibleLengthFrom, vlFinal]
  · intro k hk
    unfold rowsRequiredSpec
    have hne : k * w ≠ 0 := Nat.mul_ne_zero (Nat.pos_iff_ne_zero.mp hk) (Nat.pos_iff_ne_zero.mp hw)
    rw [if_neg hne]
    have h1 : k * w + w - 1 = w * k + (w - 1) := by
      rw [Nat.mul_comm]
      omega
    rw [h1, Nat.mul_add_div hw, Nat.div_eq_of_lt (by omega), Nat.add_zero]

/-- Witness for C3 at the spec's Scenario C (width 3, line `"aaaa"`). -/
theorem c3_lines_used_rows_witness :
    lines_used [97, 97, 97, 97] 3 =
      ((splitNl [97, 97, 97, 97]).map (fun line => rowsRequiredSpec (visible_length line) 3)).sum :=
  (c3_lines_used_rows [97, 97, 97, 97] 3 (by decide)).1

/-- C6: for every buffer, the rows required are monotonically non-decreasing
as the width decreases: positive widths `w2 < w1` give
`lines_used buf w1 ≤ lines_used buf w2`. -/
theorem c6_rows_monotone (buf : List Nat) (w1 w2 : Nat) (h2 : 0 < w2) (h12 : w2 < w1) :
    lines_used buf w1 ≤ lines_used buf w2 := by
  unfold lines_used
  apply List.sum_le_sum
  intro l _
  have hdiv : (visible_length l - 1) / w1 ≤ (visible_length l - 1) / w2 :=
    Nat.div_le_div_left (Nat.le_of_lt h12) h2
  omega

/-- Witness for C6 at widths 100 and 3 on `"aaaa"`. -/
theorem c6_rows_monotone_witness :
    lines_used [97, 97, 97, 97] 100 ≤ lines_used [97, 97, 97, 97] 3 :=
  c6_rows_monotone [97, 97, 97, 97] 100 3 (by decide) (by decide)

/-- One result of a `file.read` call on the input source, as seen by the
reader's loop: the source offers up to `n` fresh bytes, or the read is
interrupted (Rust `ErrorKind::Interrupted`, retried), or it fails with any
other error.  An exhausted event list means the source reports end-of-file
(`Ok(0)`). -/
inductive RdEvent where
  | data : Nat → RdEvent
  | interrupted : RdEvent
  | errOther : RdEvent
  deriving DecidableEq, Repr

/-- Rust `enum Contents { All(Vec<u8>), Part(Vec<u8>) }`. -/
inductive Contents where
  | All : List Nat → Contents
  | Part : List Nat → Contents
  deriving DecidableEq, Repr

/-- The `Result<Contents, (Vec<u8>, Box<dyn Error>)>` returned by the reader:
the error case keeps the partial buffer. -/
inductive RpOutcome where
  | ok : Contents → RpOutcome
  | err : List Nat → RpOutcome
  deriving DecidableEq, Repr

/-- The buffer an outcome hands off. -/
def bufferOf : RpOutcome → List Nat
  | .ok (.All b) => b
  | .ok (.Part b) => b
  | .err b => b

/-- `lines_used` as Rust evaluates it: the per-segment formula divides by
`width`, so width 0 panics (modelled as `none`). -/
def linesUsedChecked (buf : List Nat) (w : Nat) : Option Nat :=
  if w = 0 then none else some (lines_used buf w)

/-- The byte size of one screen block, `(width * usable_height) as usize`:
the multiplication is performed on the 16-bit `Width`/`Height` values, so it
wraps at 2^16 (release build; a debug build panics there). -/
def screenBlock (w uh : Nat) : Nat := (w * uh) % 65536

/-- `file.read(&mut buf[len..])` returning `chunk.length` bytes: the fresh
bytes land at offset `len`, the zero-filled tail beyond them stays. -/
def writeChunk (buf : List Nat) (len : Nat) (chunk : List Nat) : List Nat :=
  buf.take len ++ chunk ++ buf.drop (len + chunk.length)

/-- `buf.extend(vec![0; block])` when the buffer has become full. -/
def growIfFull (block : Nat) (buf : List Nat) (len : Nat) : List Nat :=
  if len = buf.length then buf ++ List.replicate block 0 else buf

/-- The reader's `while lines_used(..) <= usable_height` loop.  `buf` is the
zero-filled allocation, `len` the filled length, `src` the bytes the source
still holds, `events` the schedule of read results.  `none` models the panic
of a zero-width division. -/
def rpLoop (w uh : Nat) (buf : List Nat) (len : Nat) (src : List Nat) :
    List RdEvent → Option RpOutcome
  | [] =>
      match linesUsedChecked (buf.take len) w with
      | none => none
      | some rows =>
        if rows ≤ uh then some (.ok (.All (buf.take len)))
        else some (.ok (.Part (buf.take len)))
  | e :: rest =>
      match linesUsedChecked (buf.take len) w with
      | none => none
      | some rows =>
        if rows ≤ uh then
          match e with
          | .data n =>
              let chunk := src.take (min n (buf.length - len))
              if chunk.length = 0 then some (.ok (.All (buf.take len)))
              else
                rpLoop w uh (growIfFull (screenBlock w uh) (writeChunk buf len chunk)
                    (len + chunk.length))
                  (len + chunk.length) (src.drop chunk.length) rest
          | .interrupted => rpLoop w uh buf len src rest
          | .errOther => some (.err (buf.take len))
        else some (.ok (.Part (buf.take len)))

/-- Rust `read_prefix`: geometry `some (w, h)` models `terminal_size()`
returning `Some((Width(w), Height(h)))`; `usable_height = h - 3`
(saturating), and the initial allocation is one screen block of zeroes.
Without geometry the decision is an immediate `Part` with an empty buffer. -/
def readPrefix (geom : Option (Nat × Nat)) (src : List Nat) (events : List RdEvent) :
    Option RpOutcome :=
  match geom with
  | some (w, h) =>
      rpLoop w (h - 3) (List.replicate (screenBlock w (h - 3)) 0) 0 src events
  | none => some (.ok (.Part []))

example : readPrefix none [97] [] = some (.ok (.Part [])) := by decide
example : readPrefix (some (4, 5)) [97, 98] [.data 8] = some (.ok (.All [97, 98])) := by decide
example : readPrefix (some (0, 10)) [] [] = none := by decide
example : readPrefix (some (4, 5)) [97, 98] [.interrupted, .data 8] =
    some (.ok (.All [97, 98])) := by decide
example : readPrefix (some (4, 5)) [97, 98] [.data 8, .errOther] = some (.err [97, 98]) := by
  decide

example : readPrefix (some (4, 5)) (List.replicate 20 97) [.data 100, .data 100] =
    some (.ok (.Part (List.replicate 16 97))) := by decide

/-- C5 evaluated at the failing input: with reported geometry `(0, 10)` the
very first loop-condition check invokes `lines_used` with width 0 and its
per-segment division divides by zero (a Rust panic, modelled as `none`).  No
guard at the geometry-detection boundary prevents this, contrary to the
claim. -/
theorem c5_zero_width_reaches_division : readPrefix (some (0, 10)) [] [] = none := by decide

lemma writeChunk_length (buf : List Nat) (len : Nat) (chunk : List Nat)
    (h : len + chunk.length ≤ buf.length) :
    (writeChunk buf len chunk).length = buf.length := by
  unfold writeChunk
  simp only [List.length_append, List.length_take, List.length_drop]
  omega

lemma writeChunk_take (buf : List Nat) (len : Nat) (chunk : List Nat)
    (h : len ≤ buf.length) :
    (writeChunk buf len chunk).take (len + chunk.length) = buf.take len ++ chunk := by
  unfold writeChunk
  have hlen : (buf.take len ++ chunk).length = len + chunk.length := by
    simp only [List.length_append, List.length_take]
    omega
  rw [List.take_append_of_le_length (Nat.le_of_eq hlen.symm),
    List.take_of_length_le (Nat.le_of_eq hlen)]

lemma growIfFull_take (block : Nat) (buf : List Nat) (len k : Nat) (h : k ≤ buf.length) :
    (growIfFull block buf len).take k = buf.take k := by
  unfold growIfFull
  by_cases hfull : len = buf.length
  · rw [if_pos hfull, List.take_append_of_le_length h]
  · rw [if_neg hfull]

lemma rpLoop_nil (w uh : Nat) (buf : List Nat) (len : Nat) (src : List Nat) :
    rpLoop w uh buf len src [] =
      match linesUsedChecked (buf.take len) w with
      | none => none
      | some rows =>
        if rows ≤ uh then some (.ok (.All (buf.take len)))
        else some (.ok (.Part (buf.take len))) := rfl

lemma rpLoop_data (w uh : Nat) (buf : List Nat) (len : Nat) (src : List Nat) (n : Nat)
    (rest : List RdEvent) :
    rpLoop w uh buf len src (.data n :: rest) =
      match linesUsedChecked (buf.take len) w with
      | none => none
      | some rows =>
        if rows ≤ uh then
          if (src.take (min n (buf.length - len))).length = 0 then
            some (.ok (.All (buf.take len)))
          else
            rpLoop w uh
              (growIfFull (screenBlock w uh)
                (writeChunk buf len (src.take (min n (buf.length - len))))
                (len + (src.take (min n (buf.length - len))).length))
              (len + (src.take (min n (buf.length - len))).length)
              (src.drop (src.take (min n (buf.length - len))).length) rest
        else some (.ok (.Part (buf.take len))) := rfl

lemma rpLoop_interrupted (w uh : Nat) (buf : List Nat) (len : Nat) (src : List Nat)
    (rest : List RdEvent) :
    rpLoop w uh buf len src (.interrupted :: rest) =
      match linesUsedChecked (buf.take len) w with
      | none => none
      | some rows =>
        if rows ≤ uh then rpLoop w uh buf len src rest
        else some (.ok (.Part (buf.take len))) := rfl

lemma rpLoop_err (w uh : Nat) (buf : List Nat) (len : Nat) (src : List Nat)
    (rest : List RdEvent) :
    rpLoop w uh buf len src (.errOther :: rest) =
      match linesUsedChecked (buf.take len) w with
      | none => none
      | some rows =>
        if rows ≤ uh then some (.err (buf.take len))
        else some (.ok (.Part (buf.take len))) := rfl

/-- Loop invariant behind C8: every buffer the loop hands off is the already
filled part of the allocation followed by a prefix of the source's remaining
bytes — never the zero-filled tail. -/
lemma rpLoop_buffer (events : List RdEvent) : ∀ (w uh : Nat) (buf : List Nat) (len : Nat)
    (src : List Nat) (out : RpOutcome), len ≤ buf.length →
    rpLoop w uh buf len src events = some out →
    ∃ k, bufferOf out = buf.take len ++ src.take k := by
  induction events with
  | nil =>
      intro w uh buf len src out hlen hout
      rw [rpLoop_nil] at hout
      split at hout
      · exact absurd hout (by simp)
      · split at hout
        · refine ⟨0, ?_⟩
          cases hout
          simp [bufferOf]
        · refine ⟨0, ?_⟩
          cases hout
          simp [bufferOf]
  | cons e rest ih =>
      intro w uh buf len src out hlen hout
      match e with
      | .data n =>
          rw [rpLoop_data] at hout
          split at hout
          · exact absurd hout (by simp)
          · split at hout
            · split at hout
              · refine ⟨0, ?_⟩
                cases hout
                simp [bufferOf]
              · rename_i hempty
                set chunk := src.take (min n (buf.length - len)) with hchunk
                have hfit : chunk.length ≤ buf.length - len := by
                  rw [hchunk]
                  calc (src.take (min n (buf.length - len))).length
                      ≤ min n (buf.length - len) := List.length_take_le _ _
                    _ ≤ buf.length - len := Nat.min_le_right _ _
                have hsum : len + chunk.length ≤ buf.length := by omega
                have hwlen : (writeChunk buf len chunk).length = buf.length :=
                  writeChunk_length buf len chunk hsum
                have hlen2 : len + chunk.length ≤
                    (growIfFull (screenBlock w uh) (writeChunk buf len chunk)
                      (len + chunk.length)).length := by
                  unfold growIfFull
                  by_cases hfull : len + chunk.length = (writeChunk buf len chunk).length
                  · rw [if_pos hfull]
                    simp only [List.length_append]
                    omega
                  · rw [if_neg hfull, hwlen]
                    omega
                obtain ⟨k, hk⟩ := ih w uh _ (len + chunk.length) (src.drop chunk.length)
                  out hlen2 hout
                have hsrc_take : src.take chunk.length = chunk := by
                  rw [hchunk, List.length_take]
                  rcases Nat.le_total (min n (buf.length - len)) src.length with hle | hle
                  · rw [Nat.min_eq_left hle]
                  · rw [Nat.min_eq_right hle, List.take_length,
                      List.take_of_length_le hle]
                refine ⟨chunk.length + k, ?_⟩
                rw [hk, growIfFull_take _ _ _ _ (by rw [hwlen]; exact hsum),
                  writeChunk_take buf len chunk hlen, List.append_assoc]
                congr 1
                rw [List.take_add, hsrc_take]
            · refine ⟨0, ?_⟩
              cases hout
              simp [bufferOf]
      | .interrupted =>
          rw [rpLoop_interrupted] at hout
          split at hout
          · exact absurd hout (by simp)
          · split at hout
            · exact ih w uh buf len src out hlen hout
            · refine ⟨0, ?_⟩
              cases hout
              simp [bufferOf]
      | .errOther =>
          rw [rpLoop_err] at hout
          split at hout
          · exact absurd hout (by simp)
          · split at hout
            · refine ⟨0, ?_⟩
              cases hout
              simp [bufferOf]
            · refine ⟨0, ?_⟩
              cases hout
              simp [bufferOf]

/-- C8: on every exit path of the reader (ShowAll, Page, and the error path)
the buffer handed off is exactly a prefix of the bytes read from the source,
in order — the zero-filled tail of the allocation never leaks into it. -/
theorem c8_handed_off_buffer_exact (w h : Nat) (src : List Nat) (events : List RdEvent)
    (out : RpOutcome) (hout : readPrefix (some (w, h)) src events = some out) :
    ∃ k, bufferOf out = src.take k := by
  unfold readPrefix at hout
  obtain ⟨k, hk⟩ := rpLoop_buffer events w (h - 3) _ 0 src out (Nat.zero_le _) hout
  exact ⟨k, by simpa using hk⟩

/-- Witness for C8: a source that fits on screen is handed off whole. -/
theorem c8_handed_off_buffer_exact_witness :
    ∃ k, bufferOf (RpOutcome.ok (Contents.All [97, 98])) = List.take k [97, 98] :=
  c8_handed_off_buffer_exact 4 5 [97, 98] [RdEvent.data 8]
    (RpOutcome.ok (Contents.All [97, 98])) (by decide)

/-- Outcome of one `write_all` call on a pipe or on stdout. -/
inductive WRes where
  | ok : WRes
  | brokenPipe : WRes
  | otherErr : WRes
  deriving DecidableEq, Repr

/-- Events of `main`'s error branch, in program order. -/
inductive MainEv where
  | stdoutWrite : List Nat → MainEv
  | errorReport : MainEv
  deriving DecidableEq, Repr

/-- Rust `main`'s `Err((buf, e))` branch: write the partial buffer to stdout
(a broken pipe there returns silently, any other write error is swallowed),
then panic with the read error. -/
def mainOnReadErr (b : List Nat) (stdoutRes : WRes) : List MainEv :=
  match stdoutRes with
  | .ok => [.stdoutWrite b, .errorReport]
  | .brokenPipe => []
  | .otherErr => [.errorReport]

/-- How the wrapper's `Page` dispatch ends: `earlyReturn` is a bare `return`
from `main` (the process then exits with status 0, without waiting for the
pager); `waited c` is `process::exit(c)` after `command.wait()`; `panicked`
is a `panic!` (an abnormal, error-reporting exit). -/
inductive POutcome where
  | earlyReturn : POutcome
  | waited : Nat → POutcome
  | panicked : POutcome
  deriving DecidableEq, Repr

/-- The observable result of the `Page` dispatch: how it ended, every byte
successfully delivered to the pager's input in order, and whether an error
was printed. -/
structure PageRun where
  outcome : POutcome
  written : List Nat
  errPrinted : Bool
  deriving DecidableEq, Repr

/-- The process exit status each ending produces (a Rust panic aborts with
status 101). -/
def processExit : POutcome → Nat
  | .earlyReturn => 0
  | .waited c => c
  | .panicked => 101

/-- The remainder-streaming loop of `main`'s `Page` branch: read the source
into a 16 KiB buffer, forward each chunk with `write_all`, retry interrupted
reads, stop at end of input and then wait for the pager, whose exit code
(default 1) becomes the process exit status.  `wres` schedules the outcome
of each write; an exhausted schedule means writes succeed. -/
def streamLoop (src : List Nat) (events : List RdEvent) (wres : List WRes)
    (code : Option Nat) (written : List Nat) : PageRun :=
  match events with
  | [] => ⟨.waited (code.getD 1), written, false⟩
  | .data n :: rest =>
      let chunk := src.take (min n 16384)
      if chunk.length = 0 then ⟨.waited (code.getD 1), written, false⟩
      else
        match wres with
        | .brokenPipe :: _ => ⟨.earlyReturn, written, false⟩
        | .otherErr :: _ => ⟨.panicked, written, true⟩
        | .ok :: wrest => streamLoop (src.drop chunk.length) rest wrest code (written ++ chunk)
        | [] => streamLoop (src.drop chunk.length) rest [] code (written ++ chunk)
  | .interrupted :: rest => streamLoop src rest wres code written
  | .errOther :: _ => ⟨.panicked, written, true⟩

/-- Rust `main`'s `Ok(Contents::Part(buf))` branch after the pager is
spawned: `write_all` the buffered head into the pager's input (first entry of
`wres`), then stream the remainder.  `code` is what `command.wait()` will
report (`none` models death by signal). -/
def pageDispatch (pre : List Nat) (src : List Nat) (events : List RdEvent)
    (wres : List WRes) (code : Option Nat) : PageRun :=
  match wres with
  | .brokenPipe :: _ => ⟨.earlyReturn, [], false⟩
  | .otherErr :: _ => ⟨.panicked, [], true⟩
  | .ok :: wrest => streamLoop src events wrest code pre
  | [] => streamLoop src events [] code pre

example : pageDispatch [104] [] [] [] (some 3) = ⟨.waited 3, [104], false⟩ := by decide
example : pageDispatch [104] [] [] [] none = ⟨.waited 1, [104], false⟩ := by decide
example : pageDispatch [104] [97, 98] [.data 1, .data 9] [.ok, .ok, .brokenPipe] (some 3) =
    ⟨.earlyReturn, [104, 97], false⟩ := by decide

/-- C1 counterexample: the pager closes its input while the buffered head is
being written and later exits with code 7, yet the wrapper neither waits for
that exit code nor propagates it — it returns at once and the process exits
with status 0. -/
theorem c1_counterexample :
    pageDispatch [104] [] [] [WRes.brokenPipe] (some 7) =
      ⟨POutcome.earlyReturn, [], false⟩ ∧
    processExit (pageDispatch [104] [] [] [WRes.brokenPipe] (some 7)).outcome = 0 ∧
    processExit (pageDispatch [104] [] [] [WRes.brokenPipe] (some 7)).outcome ≠ 7 := by
  decide

lemma streamLoop_data (src : List Nat) (n : Nat) (rest : List RdEvent) (wres : List WRes)
    (code : Option Nat) (written : List Nat) :
    streamLoop src (.data n :: rest) wres code written =
      if (src.take (min n 16384)).length = 0 then ⟨.waited (code.getD 1), written, false⟩
      else
        match wres with
        | .brokenPipe :: _ => ⟨.earlyReturn, written, false⟩
        | .otherErr :: _ => ⟨.panicked, written, true⟩
        | .ok :: wrest =>
            streamLoop (src.drop (src.take (min n 16384)).length) rest wrest code
              (written ++ src.take (min n 16384))
        | [] =>
            streamLoop (src.drop (src.take (min n 16384)).length) rest [] code
              (written ++ src.take (min n 16384)) := rfl

lemma streamLoop_early_silent (events : List RdEvent) : ∀ (src : List Nat) (wres : List WRes)
    (code : Option Nat) (written : List Nat),
    (streamLoop src events wres code written).outcome = POutcome.earlyReturn →
    (streamLoop src events wres code written).errPrinted = false := by
  induction events with
  | nil =>
      intro src wres code written h
      simp [streamLoop] at h
  | cons e rest ih =>
      intro src wres code written h
      match e with
      | .data n =>
          rw [streamLoop_data] at h ⊢
          by_cases hlen0 : (src.take (min n 16384)).length = 0
          · rw [if_pos hlen0] at h
            simp at h
          · rw [if_neg hlen0] at h ⊢
            match wres with
            | .brokenPipe :: _ => rfl
            | .otherErr :: _ => simp at h
            | .ok :: wrest => exact ih _ _ _ _ h
            | [] => exact ih _ _ _ _ h
      | .interrupted => exact ih _ _ _ _ h
      | .errOther => simp [streamLoop] at h

/-- C1 amended: when the pager closes its input early (broken pipe while
writing the buffered head, or while streaming the remainder), the wrapper
stops streaming immediately, prints no error, and returns at once — it does
not wait for the pager, and the process exits with status 0 regardless of the
pager's exit code. -/
theorem c1_broken_pipe_exits_zero (pre src : List Nat) (events : List RdEvent)
    (ws : List WRes) (code : Option Nat)
    (hq : (pageDispatch pre src events ws code).outcome = POutcome.earlyReturn) :
    pageDispatch pre src events (WRes.brokenPipe :: ws) code =
      ⟨POutcome.earlyReturn, [], false⟩ ∧
    (pageDispatch pre src events ws code).errPrinted = false ∧
    processExit (pageDispatch pre src events ws code).outcome = 0 := by
  refine ⟨rfl, ?_, ?_⟩
  · match ws with
    | .brokenPipe :: _ => rfl
    | .otherErr :: _ => exact absurd hq (by simp [pageDispatch])
    | .ok :: wrest => exact streamLoop_early_silent events src wrest code pre hq
    | [] => exact streamLoop_early_silent events src [] code pre hq
  · rw [hq]
    rfl

/-- Witness for C1's amended claim: a mid-stream broken pipe after one
successful 16 KiB chunk. -/
theorem c1_broken_pipe_exits_zero_witness :
    pageDispatch [104] [97, 98] [RdEvent.data 1, RdEvent.data 9]
      (WRes.brokenPipe :: [WRes.ok, WRes.brokenPipe]) (some 3) =
      ⟨POutcome.earlyReturn, [], false⟩ ∧
    (pageDispatch [104] [97, 98] [RdEvent.data 1, RdEvent.data 9]
      [WRes.ok, WRes.brokenPipe] (some 3)).errPrinted = false ∧
    processExit (pageDispatch [104] [97, 98] [RdEvent.data 1, RdEvent.data 9]
      [WRes.ok, WRes.brokenPipe] (some 3)).outcome = 0 :=
  c1_broken_pipe_exits_zero [104] [97, 98] [RdEvent.data 1, RdEvent.data 9]
    [WRes.ok, WRes.brokenPipe] (some 3) (by decide)

/-- C7: a read error other than an interrupted read makes the reader return a
failure still carrying the buffer truncated to exactly the bytes accumulated
so far (a prefix of the source), and `main` writes that partial buffer to
standard output before reporting the fatal read failure. -/
theorem c7_partial_buffer_surfaced (w h : Nat) (src : List Nat) (events : List RdEvent)
    (b : List Nat) (hout : readPrefix (some (w, h)) src events = some (.err b)) :
    (∃ k, b = src.take k) ∧
    mainOnReadErr b WRes.ok = [MainEv.stdoutWrite b, MainEv.errorReport] := by
  refine ⟨?_, rfl⟩
  unfold readPrefix at hout
  obtain ⟨k, hk⟩ := rpLoop_buffer events w (h - 3) _ 0 src (.err b) (Nat.zero_le _) hout
  exact ⟨k, by simpa [bufferOf] using hk⟩

/-- Witness for C7: the source delivers two bytes and then fails; the error
outcome carries exactly those two bytes, and `main` writes then reports. -/
theorem c7_partial_buffer_surfaced_witness :
    (∃ k, [97, 98] = List.take k [97, 98]) ∧
    mainOnReadErr [97, 98] WRes.ok =
      [MainEv.stdoutWrite [97, 98], MainEv.errorReport] :=
  c7_partial_buffer_surfaced 4 5 [97, 98] [RdEvent.data 8, RdEvent.errOther] [97, 98]
    (by decide)

/-- A state of the reader's fill loop: the zero-padded allocation, the filled
length, the source's remaining bytes and the remaining read schedule. -/
structure RpSt where
  buf : List Nat
  len : Nat
  src : List Nat
  events : List RdEvent
  deriving DecidableEq, Repr

/-- One iteration of the reader's loop as a step relation: the loop condition
holds (`lines_used` of the filled part is within the usable height), and the
scheduled read either is interrupted (retried, consuming the event) or
delivers a non-empty chunk, which lands at the fill point; the allocation is
extended by one screen block exactly when it has become full. -/
inductive RpStep (w uh : Nat) : RpSt → RpSt → Prop where
  | interrupted : ∀ (s : RpSt) (rest : List RdEvent) (rows : Nat),
      s.events = RdEvent.interrupted :: rest →
      linesUsedChecked (s.buf.take s.len) w = some rows → rows ≤ uh →
      RpStep w uh s ⟨s.buf, s.len, s.src, rest⟩
  | readData : ∀ (s : RpSt) (n : Nat) (rest : List RdEvent) (rows : Nat),
      s.events = RdEvent.data n :: rest →
      linesUsedChecked (s.buf.take s.len) w = some rows → rows ≤ uh →
      (s.src.take (min n (s.buf.length - s.len))).length ≠ 0 →
      RpStep w uh s
        ⟨growIfFull (screenBlock w uh)
            (writeChunk s.buf s.len (s.src.take (min n (s.buf.length - s.len))))
            (s.len + (s.src.take (min n (s.buf.length - s.len))).length),
          s.len + (s.src.take (min n (s.buf.length - s.len))).length,
          s.src.drop (s.src.take (min n (s.buf.length - s.len))).length,
          rest⟩

/-- The capacity invariant each step preserves: the fill point stays inside
the allocation, whose size is a positive multiple of the screen block. -/
lemma rpStep_preserves (w uh : Nat) (s t : RpSt) (hstep : RpStep w uh s t)
    (hinv : s.len ≤ s.buf.length ∧ ∃ k, 1 ≤ k ∧ s.buf.length = k * screenBlock w uh) :
    t.len ≤ t.buf.length ∧ ∃ k, 1 ≤ k ∧ t.buf.length = k * screenBlock w uh := by
  obtain ⟨hlen, k, hk1, hklen⟩ := hinv
  cases hstep with
  | interrupted rest rows hev hchk hrows =>
      exact ⟨hlen, k, hk1, hklen⟩
  | readData n rest rows hev hchk hrows hne =>
      set chunk := s.src.take (min n (s.buf.length - s.len)) with hchunk
      have hfit : chunk.length ≤ s.buf.length - s.len := by
        rw [hchunk]
        calc (s.src.take (min n (s.buf.length - s.len))).length
            ≤ min n (s.buf.length - s.len) := List.length_take_le _ _
          _ ≤ s.buf.length - s.len := Nat.min_le_right _ _
      have hsum : s.len + chunk.length ≤ s.buf.length := by omega
      have hwlen : (writeChunk s.buf s.len chunk).length = s.buf.length :=
        writeChunk_length s.buf s.len chunk hsum
      simp only
      unfold growIfFull
      by_cases hfull : s.len + chunk.length = (writeChunk s.buf s.len chunk).length
      · rw [if_pos hfull]
        refine ⟨?_, k + 1, by omega, ?_⟩
        · simp only [List.length_append, List.length_replicate]
          omega
        · simp only [List.length_append, List.length_replicate, hwlen, hklen]
          ring
      · rw [if_neg hfull]
        rw [hwlen] at hfull ⊢
        exact ⟨by omega, k, hk1, hklen⟩

/-- C9 amended: the reader's allocation sizes are computed on the 16-bit
width and height, so the screen block is `(width * usable_height) mod 2^16`;
the buffer starts at exactly one such block of zeroes and is extended by
exactly one more block whenever it becomes full, so in every reachable state
of the fill loop its size before final truncation is a positive multiple of
the screen block. -/
theorem c9_capacity_multiple_of_block (w h : Nat) (src : List Nat) (events : List RdEvent)
    (s : RpSt)
    (hr : Relation.ReflTransGen (RpStep w (h - 3))
      ⟨List.replicate (screenBlock w (h - 3)) 0, 0, src, events⟩ s) :
    ∃ k, 1 ≤ k ∧ s.buf.length = k * screenBlock w (h - 3) := by
  have hinv : s.len ≤ s.buf.length ∧
      ∃ k, 1 ≤ k ∧ s.buf.length = k * screenBlock w (h - 3) := by
    induction hr with
    | refl =>
        refine ⟨Nat.zero_le _, 1, Nat.le_refl 1, ?_⟩
        simp [List.length_replicate]
    | tail _ hstep ih =>
        exact rpStep_preserves w (h - 3) _ _ hstep ih
  exact hinv.2

/-- Witness for C9's amended claim at the initial state of a 4-by-5 screen. -/
theorem c9_capacity_multiple_of_block_witness :
    ∃ k, 1 ≤ k ∧
      (RpSt.mk (List.replicate (screenBlock 4 (5 - 3)) 0) 0 [] []).buf.length =
        k * screenBlock 4 (5 - 3) :=
  c9_capacity_multiple_of_block 4 5 [] [] _ Relation.ReflTransGen.refl

/-- C9 counterexample: with a 65535-cell-wide, 65535-line terminal the
claimed initial allocation of exactly `width * usable_height` bytes does not
happen — the 16-bit product wraps, and the reader allocates
`screenBlock 65535 65532 = 4` bytes instead of 4294770420. -/
theorem c9_block_wraps_counterexample :
    screenBlock 65535 (65535 - 3) ≠ 65535 * (65535 - 3) ∧ screenBlock 65535 (65535 - 3) = 4 := by
  constructor
  · intro hcontra
    have h1 : screenBlock 65535 (65535 - 3) = 4 := by decide
    rw [h1] at hcontra
    omega
  · decide
